import Mathlib

/-!
Verification development for a Discord community-management bot
(clan applications, eligibility checks, application sessions,
ticket garbage collection, staff trials, linked-account cleanup).

The Python sources are shallowly embedded:
* JSON objects (Python dicts) become insertion-ordered association
  lists; dict lookup, in-place update and key insertion are `alookup`
  and `aupdate` below (a new key is appended at the end, matching
  Python dict insertion order).
* Machine integers are `Nat` (all quantities involved are
  non-negative: levels, town-hall numbers, ids, thresholds).
* The float expression `(s / mx) * 100 < m` (with `mx > 0`) is
  modelled exactly over the integers as `100 * s < m * mx`.
* Fallible paths (Python exceptions) return `Except`/`Option` or a
  dedicated outcome constructor.
-/

/-- Association-list lookup, first match wins (Python dict lookup;
keys of a dict are unique, but the definition does not require it). -/
def alookup {κ α : Type} [DecidableEq κ] : List (κ × α) → κ → Option α
  | [], _ => none
  | (k, v) :: rest, key => if k = key then some v else alookup rest key

/-- Association-list update: replaces the value of an existing key in
place (keeping its position), appends the binding at the end when the
key is absent.  This is exactly Python `d[key] = v` on an
insertion-ordered dict. -/
def aupdate {κ α : Type} [DecidableEq κ] : List (κ × α) → κ → α → List (κ × α)
  | [], key, v => [(key, v)]
  | (k, w) :: rest, key, v =>
    if k = key then (k, v) :: rest else (k, w) :: aupdate rest key v

/-! ## Eligibility checks (src/core/checks.py)

A `coc.Player` is embedded as `Player`.  Each unit (hero, troop,
spell) carries its level, its home-base flag, and the value
`get_max_level_for_townhall(target.town_hall)` pre-applied at the
player's own town hall (the checks never query any other town hall),
stored as `maxLevel`. -/

structure UnitData where
  level : Nat
  maxLevel : Nat
  isHomeBase : Bool
deriving DecidableEq

structure Player where
  townHall : Nat
  heroes : List UnitData
  troops : List UnitData
  spells : List UnitData
deriving DecidableEq

/-- Sum of home-base levels of a unit list. -/
def homeLevelSum (units : List UnitData) : Nat :=
  ((units.filter fun u => u.isHomeBase).map fun u => u.level).sum

/-- Sum of home-base max levels (at the player's town hall). -/
def homeMaxLevelSum (units : List UnitData) : Nat :=
  ((units.filter fun u => u.isHomeBase).map fun u => u.maxLevel).sum

/-- Python `hero_sum_check`: combined home-base hero levels meet the minimum. -/
def hero_sum_check (target : Player) (min_value : Nat) : Bool :=
  !(homeLevelSum target.heroes < min_value)

/-- Python `hero_max_check`: hero progression percentage against the town-hall
max.  `hero_max_sum == 0` returns `True` before any division.  The
float comparison `(s / mx) * 100 < m` is modelled exactly as
`100 * s < m * mx` (equivalent over the rationals for `mx > 0`). -/
def hero_max_check (target : Player) (min_value : Nat) : Bool :=
  let hero_sum := homeLevelSum target.heroes
  let hero_max_sum := homeMaxLevelSum target.heroes
  if hero_max_sum = 0 then true
  else !(100 * hero_sum < min_value * hero_max_sum)

/-- Python `overall_max_check`: heroes + troops + spells progression. -/
def overall_max_check (target : Player) (min_value : Nat) : Bool :=
  let total_current :=
    homeLevelSum target.heroes + homeLevelSum target.troops + homeLevelSum target.spells
  let total_max :=
    homeMaxLevelSum target.heroes + homeMaxLevelSum target.troops + homeMaxLevelSum target.spells
  if total_max = 0 then true
  else !(100 * total_current < min_value * total_max)

/-- The `CLAN_CHECKS` registry: name → check function; an unknown name is
a Python `KeyError` (modelled as `none`). -/
def clanChecksRegistry (name : String) : Option (Player → Nat → Bool) :=
  if name = "hero_sum" then some hero_sum_check
  else if name = "hero_max" then some hero_max_check
  else if name = "overall_max" then some overall_max_check
  else none

/-! ## Clan registry (src/core/models.py `AllianceClanData`,
src/cogs/applications/components.py `clan_select`,
src/cogs/applications/comp_clan.py interview flow)

Only the fields read by the embedded logic are modelled; display-only
fields (name, emoji, messages, role ids, channel ids, naming settings)
are omitted.  `type` is a Lean keyword, so the field is `ctype`. -/

structure AllianceClanData where
  requirement : String
  maximumPossibleTH : Option String
  recruitment : Bool
  ctype : String
  checks : List (String × Nat)
deriving DecidableEq

/-- Python `extract_integer` (src/core/utils.py): the first maximal run of
decimal digits in the string as an integer, `None` when the string has
no digit. -/
def digitRunToNat (ds : List Char) : Nat :=
  ds.foldl (fun n c => n * 10 + (c.toNat - 48)) 0

def firstDigitRun : List Char → Option (List Char)
  | [] => none
  | c :: cs => if c.isDigit then some (c :: cs.takeWhile Char.isDigit) else firstDigitRun cs

def extract_integer (s : String) : Option Nat :=
  (firstDigitRun s.data).map digitRunToNat

/-- One `check` entry of a clan: look the name up in `CLAN_CHECKS` and
run it.  `none` models the `KeyError` raised for a name missing from
the registry (the surrounding command aborts). -/
def runChecks (p : Player) : List (String × Nat) → Option Bool
  | [] => some true
  | (name, min_value) :: rest =>
    match clanChecksRegistry name with
    | none => none
    | some f => if f p min_value then runChecks p rest else some false

/-- Town-hall gate + custom checks, shared by both eligibility loops
(runs after the category filters).  `none` models the `TypeError`
raised when `extract_integer` returns `None` inside a comparison
(requirement string without digits); the Python code would crash and
offer nothing.  An empty `maximum_possibleTH` string is falsy in
Python, so no upper bound is applied then. -/
def clanEvalCore (v : AllianceClanData) (p : Player) : Option Bool :=
  match extract_integer v.requirement with
  | none => none
  | some minTH =>
    if p.townHall < minTH then some false
    else
      match v.maximumPossibleTH with
      | none => runChecks p v.checks
      | some s =>
        if s = "" then runChecks p v.checks
        else
          match extract_integer s with
          | none => none
          | some maxTH =>
            if maxTH < p.townHall then some false
            else runChecks p v.checks

/-- Loop body of `clan_select` (components.py lines 362-409): skips
clans with recruitment closed or of type `FWA`; no `CWL` filter. -/
def clanEvalSelect (v : AllianceClanData) (p : Player) : Option Bool :=
  if v.recruitment = false then some false
  else if v.ctype = "FWA" then some false
  else clanEvalCore v p

/-- Loop body of the interview flow `apply_clan` (comp_clan.py lines
262-302): additionally skips clans of type `CWL`. -/
def clanEvalApply (v : AllianceClanData) (p : Player) : Option Bool :=
  if v.recruitment = false then some false
  else if v.ctype = "FWA" then some false
  else if v.ctype = "CWL" then some false
  else clanEvalCore v p

/-- The filter loop over the registry: at most 30 offered clans
(`if clan_count >= 30: break`); an evaluation crash (`none`) aborts the
whole command, so nothing at all is offered then. -/
def offeredGo (ev : AllianceClanData → Player → Option Bool) (p : Player) :
    Nat → List (String × AllianceClanData) → Option (List String)
  | _, [] => some []
  | cnt, (key, v) :: rest =>
    if 30 ≤ cnt then some []
    else
      match ev v p with
      | none => none
      | some false => offeredGo ev p cnt rest
      | some true => (offeredGo ev p (cnt + 1) rest).map fun l => key :: l

/-- Clan tags offered as selectable options by the staff command
`/clan select` (components.py `clan_select`). -/
def offeredClansSelect (cfgs : List (String × AllianceClanData)) (p : Player) :
    Option (List String) :=
  offeredGo clanEvalSelect p 0 cfgs

/-- Clan tags offered by the interview application flow (comp_clan.py
`apply_clan`); the registry order is the shuffled order, which is why
the configuration list is a parameter. -/
def offeredClansApply (cfgs : List (String × AllianceClanData)) (p : Player) :
    Option (List String) :=
  offeredGo clanEvalApply p 0 cfgs


/-! ## Application sessions (src/cogs/applications/components.py)

`data/packages.json` maps a random hex token to an
`ApplicationPackage`.  The embedded operations are parameterised by
the sets of tags the game API resolves (`fetch_player` and
`fetch_clan` raise a NotFound-derived error otherwise) and by the keys
of `data/clans_config.json`. -/

structure ApplicationPackage where
  accountTags : List String
  accClan : List (String × Option String)
  accImages : List (String × Option String)
  user : Nat
  messageId : Nat
  channelId : Nat
deriving DecidableEq

/-- The session registry file `data/packages.json`. -/
def Packages := List (String × ApplicationPackage)
deriving DecidableEq

inductive SelectError where
  /-- Python `KeyError` on an unknown token, surfaced by the error handler as
  a stale-session ("data invalidated") message. -/
  | staleData
  /-- Non-owner interaction: error message, no mutation. -/
  | forbidden
  /-- An `InvalidTagError` (a `coc.errors.NotFound`) from `fetch_clan` or
  `fetch_player`. -/
  | tagNotFound
deriving DecidableEq

/-- Python `clan_selection` (components.py lines 62-94): resolve the token,
check ownership, resolve clan and player tags, record the mapping and
persist.  The account tag is the one parsed from the select menu
placeholder; nothing checks that it belongs to the session, so a
resolvable tag outside the session is appended to the mapping. -/
def clan_selection (validPlayers validClans : List String) (pkgs : Packages)
    (token : String) (actor : Nat) (account clan : String) :
    Except SelectError Packages :=
  match alookup pkgs token with
  | none => .error .staleData
  | some p =>
    if actor = p.user then
      if clan ∈ validClans then
        if account ∈ validPlayers then
          .ok (aupdate pkgs token
            ⟨p.accountTags, aupdate p.accClan account (some clan),
             p.accImages, p.user, p.messageId, p.channelId⟩)
        else .error .tagNotFound
      else .error .tagNotFound
    else .error .forbidden

inductive ConfirmOutcome where
  /-- Python `KeyError` on an unknown token (stale-session message). -/
  | staleData
  /-- Non-owner interaction. -/
  | forbidden
  /-- Zero accounts have a selection. -/
  | validationError
  /-- An `InvalidTagError` while resolving a selected account or clan. -/
  | tagNotFound
  /-- An uncaught `KeyError`: `clans_config[list(acc_clan.values())[0]]`
  with a `None` first value (or a selected clan missing from the
  registry), surfaced as an unexpected error. -/
  | crashed
  /-- Finalised: summary rendered, recruiters granted access. -/
  | finalized
deriving DecidableEq

/-- First failure while iterating the selected `(account, clan)` pairs
of `clan_confirm`: `fetch_player(acc)`, then `fetch_clan(clan)`, then
`clans_config[clan.tag]` accesses. -/
def confirmLoop (validPlayers validClans cfgKeys : List String) :
    List (String × Option String) → Option ConfirmOutcome
  | [] => none
  | (_, none) :: rest => confirmLoop validPlayers validClans cfgKeys rest
  | (acc, some clan) :: rest =>
    if acc ∉ validPlayers then some .tagNotFound
    else if clan ∉ validClans then some .tagNotFound
    else if clan ∉ cfgKeys then some .crashed
    else confirmLoop validPlayers validClans cfgKeys rest

/-- Python `clan_confirm` (components.py lines 141-296).  The handler never
writes `data/packages.json`, so the registry is returned unchanged on
every path.  After the summary loop the channel rename reads
`clans_config[list(acc_clan.values())[0]]`: when the first account's
mapping is still `None` this is `clans_config[None]`, a `KeyError`
that the surrounding `try` does not catch (it only catches Discord
errors). -/
def clan_confirm (cfgKeys validPlayers validClans : List String)
    (pkgs : Packages) (token : String) (actor : Nat) :
    ConfirmOutcome × Packages :=
  match alookup pkgs token with
  | none => (.staleData, pkgs)
  | some p =>
    if actor = p.user then
      if p.accClan.any (fun pr => pr.2.isSome) then
        match confirmLoop validPlayers validClans cfgKeys p.accClan with
        | some bad => (bad, pkgs)
        | none =>
          match p.accClan.head? with
          | none => (.validationError, pkgs)
          | some (_, none) => (.crashed, pkgs)
          | some (_, some _) => (.finalized, pkgs)
      else (.validationError, pkgs)
    else (.forbidden, pkgs)

inductive CancelError where
  | staleData
  | forbidden
deriving DecidableEq

/-- The per-row reset of `clan_cancel`: row `i` of the message holds
the select menu of `account_tags[i]`; rows whose placeholder ends in
"not eligible" are skipped (`eligible` records, per account, whether
its select menu was generated enabled — that flag never changes over
the lifetime of the message). -/
def cancelReset (accClan : List (String × Option String))
    (rows : List (String × Bool)) : List (String × Option String) :=
  rows.foldl (fun m pr => if pr.2 then aupdate m pr.1 none else m) accClan

/-- The package as persisted by `clan_cancel`: the clan mapping of
every eligible account reset to `None`, everything else unchanged. -/
def cancelPackage (p : ApplicationPackage) (eligible : List Bool) :
    ApplicationPackage :=
  ⟨p.accountTags, cancelReset p.accClan (p.accountTags.zip eligible),
   p.accImages, p.user, p.messageId, p.channelId⟩

/-- Python `clan_cancel` (components.py lines 298-325): resolve token, check
ownership, reset every eligible account's mapping to `None`, persist. -/
def clan_cancel (pkgs : Packages) (eligible : List Bool) (token : String)
    (actor : Nat) : Except CancelError Packages :=
  match alookup pkgs token with
  | none => .error .staleData
  | some p =>
    if actor = p.user then
      .ok (aupdate pkgs token (cancelPackage p eligible))
    else .error .forbidden

/-! ## Clan check administration (src/cogs/general/clan_cmds.py) -/

/-- Python `clan_checks_add` (clan_cmds.py lines 397-423): refuse when the
clan already has 2 checks, refuse when the check type already exists,
otherwise store `{check_type: {min_value: n}}` and persist.  An
unknown clan tag raises `KeyError` before any write, so the store is
also unchanged then. -/
def clan_checks_add (cfgs : List (String × AllianceClanData))
    (clan_tag check_type : String) (min_value : Nat) :
    List (String × AllianceClanData) :=
  match alookup cfgs clan_tag with
  | none => cfgs
  | some v =>
    if 2 ≤ v.checks.length then cfgs
    else if (alookup v.checks check_type).isSome then cfgs
    else aupdate cfgs clan_tag
      ⟨v.requirement, v.maximumPossibleTH, v.recruitment, v.ctype,
       aupdate v.checks check_type min_value⟩

/-! ## Channel-deletion garbage collection (src/cogs/general/events.py
`on_channel_delete`)

Three stores are touched: `data/packages.json` (all matching sessions
removed), `data/open_tickets.json` (member id → list of channel ids;
the **first** owning entry has **one** occurrence removed, then the
loop breaks), and `data/ticket_events.json` (keys "channel|member";
the **first** matching key is removed, then the loop breaks).  The
event payload type is abstract (`α`): the repository never writes this
file, only deletes from it. -/

def cleanPackages (ch : Nat) (pkgs : List (String × ApplicationPackage)) :
    List (String × ApplicationPackage) :=
  pkgs.filter fun pr => pr.2.channelId ≠ ch

def cleanOpenTickets (ch : Nat) : List (Nat × List Nat) → List (Nat × List Nat)
  | [] => []
  | (m, cs) :: rest =>
    if ch ∈ cs then
      if cs.erase ch = [] then rest else (m, cs.erase ch) :: rest
    else (m, cs) :: cleanOpenTickets ch rest

def cleanTicketEvents {α : Type} (ch : Nat) :
    List ((Nat × Nat) × α) → List ((Nat × Nat) × α)
  | [] => []
  | (k, v) :: rest => if k.1 = ch then rest else (k, v) :: cleanTicketEvents ch rest

structure GCState (α : Type) where
  packages : List (String × ApplicationPackage)
  openTickets : List (Nat × List Nat)
  ticketEvents : List ((Nat × Nat) × α)
deriving DecidableEq

def on_channel_delete {α : Type} (ch : Nat) (st : GCState α) : GCState α :=
  ⟨cleanPackages ch st.packages, cleanOpenTickets ch st.openTickets,
   cleanTicketEvents ch st.ticketEvents⟩

/-! ## Trial sweep (src/cogs/general/tasks.py `auto_trials`,
src/cogs/general/trials.py)

`data/trial_events.json` maps "channel|member" keys to either a
start event `{date, action: "start", type, days}` (written by the
delay modal) or an end event `{date, action: "end", type}` (written by
the start modal and by the sweep itself).  Dates are stored as
`[Y, M, D, H, Min]`; time is embedded as minutes since an epoch, which
is exact for the stored minute-granularity values.  One sweep visits
every entry; an entry whose date has not elapsed is untouched; an
entry whose channel or user no longer resolves is dropped; an elapsed
end event is consumed (vote panel posted) and dropped; an elapsed
start event is replaced, under the same key, by an end event dated
`now + days` (a day being 1440 minutes). -/

inductive TrialEvent where
  | start (date : Nat) (ttype : String) (days : Nat)
  | tend (date : Nat) (ttype : String)
deriving DecidableEq

def TrialEvent.date : TrialEvent → Nat
  | .start d _ _ => d
  | .tend d _ => d

def autoTrialsStep (now : Nat) (liveChannels liveUsers : List Nat)
    (entry : (Nat × Nat) × TrialEvent) : Option ((Nat × Nat) × TrialEvent) :=
  if now < entry.2.date then some entry
  else if entry.1.1 ∉ liveChannels ∨ entry.1.2 ∉ liveUsers then none
  else
    match entry.2 with
    | .tend _ _ => none
    | .start _ ttype days => some (entry.1, .tend (now + days * 1440) ttype)

def auto_trials (now : Nat) (liveChannels liveUsers : List Nat)
    (events : List ((Nat × Nat) × TrialEvent)) :
    List ((Nat × Nat) × TrialEvent) :=
  events.filterMap (autoTrialsStep now liveChannels liveUsers)

/-! ## Linked-account deduplication (src/core/utils.py
`remove_player_duplicates`, `reverse_dict`)

`data/member_tags.json` maps a Discord user id to the list of game
account tags the user linked. -/

/-- Python `reverse_dict`: `{key: [v₁, v₂]} → {v₁: [key], v₂: [key]}`,
preserving first-seen order of values and, per value, the order of the
keys that hold it. -/
def reverse_dict (links : List (Nat × List String)) : List (String × List Nat) :=
  links.foldl
    (fun acc pr =>
      pr.2.foldl
        (fun acc2 item =>
          match alookup acc2 item with
          | none => acc2 ++ [(item, [pr.1])]
          | some ks => aupdate acc2 item (ks ++ [pr.1]))
        acc)
    []

/-- Apply `f` to the value stored under `key` (Python
`d[key] = f(d[key])` via in-place list mutation); the key is always
present when called from `remove_player_duplicates`. -/
def amodify {κ α : Type} [DecidableEq κ] : List (κ × α) → κ → (α → α) → List (κ × α)
  | [], _, _ => []
  | (k, v) :: rest, key, f =>
    if k = key then (k, f v) :: rest else (k, v) :: amodify rest key f

/-- Python `remove_player_duplicates` (utils.py lines 452-476): for every tag
claimed by more than one user, pick the first claimant present in the
main guild (else the first claimant) as `target_member` — and then
execute `player_links[str(target_member)].remove(key)`, i.e. delete
the tag from the **target's** list. -/
def remove_player_duplicates (links : List (Nat × List String))
    (guildMemberIds : List Nat) : List (Nat × List String) :=
  (reverse_dict links).foldl
    (fun acc pr =>
      if 1 < pr.2.length then
        let membersInGuild := pr.2.filter fun i => i ∈ guildMemberIds
        let target :=
          match membersInGuild with
          | t :: _ => t
          | [] => pr.2.headD 0
        amodify acc target fun cs => cs.erase pr.1
      else acc)
    links

/-- Sample session used to exercise the cancel flow on concrete data. -/
def samplePackage : ApplicationPackage :=
  ⟨["#P1", "#P2"], [("#P1", some "#C"), ("#P2", none)],
   [("#P1", none), ("#P2", none)], 1, 5, 9⟩

/-! ## Association-list lemmas -/

theorem alookup_aupdate_self {κ α : Type} [DecidableEq κ]
    (l : List (κ × α)) (k : κ) (v : α) : alookup (aupdate l k v) k = some v := by
  induction l with
  | nil => simp [aupdate, alookup]
  | cons hd tl ih =>
    obtain ⟨k', w⟩ := hd
    by_cases h : k' = k
    · simp [aupdate, alookup, h]
    · simp [aupdate, alookup, h, ih]

theorem alookup_aupdate_ne {κ α : Type} [DecidableEq κ]
    (l : List (κ × α)) (k k' : κ) (v : α) (h : k' ≠ k) :
    alookup (aupdate l k v) k' = alookup l k' := by
  have hne : ¬k = k' := fun hkk => h hkk.symm
  induction l with
  | nil => simp [aupdate, alookup, hne]
  | cons hd tl ih =>
    obtain ⟨k₀, w⟩ := hd
    by_cases h₀ : k₀ = k
    · subst h₀
      simp [aupdate, alookup, hne]
    · simp [aupdate, alookup, h₀, ih]

theorem aupdate_of_alookup_eq {κ α : Type} [DecidableEq κ]
    (l : List (κ × α)) (k : κ) (v : α) (h : alookup l k = some v) :
    aupdate l k v = l := by
  induction l with
  | nil => simp [alookup] at h
  | cons hd tl ih =>
    obtain ⟨k', w⟩ := hd
    by_cases hk : k' = k
    · subst hk
      simp [alookup] at h
      simp [aupdate, h]
    · simp [alookup, hk] at h
      simp [aupdate, hk, ih h]

theorem aupdate_keys_of_mem {κ α : Type} [DecidableEq κ]
    (l : List (κ × α)) (k : κ) (v : α) (h : (alookup l k).isSome) :
    (aupdate l k v).map Prod.fst = l.map Prod.fst := by
  induction l with
  | nil => simp [alookup] at h
  | cons hd tl ih =>
    obtain ⟨k', w⟩ := hd
    by_cases hk : k' = k
    · simp [aupdate, hk]
    · simp [alookup, hk] at h
      simp [aupdate, hk, ih h]

theorem mem_aupdate {κ α : Type} [DecidableEq κ]
    (l : List (κ × α)) (k : κ) (v : α) (pr : κ × α)
    (h : pr ∈ aupdate l k v) : pr ∈ l ∨ pr = (k, v) := by
  induction l with
  | nil =>
    simp [aupdate] at h
    exact Or.inr h
  | cons hd tl ih =>
    obtain ⟨k', w⟩ := hd
    by_cases hk : k' = k
    · subst hk
      simp [aupdate] at h
      rcases h with h | h
      · exact Or.inr (by simp [h])
      · exact Or.inl (List.mem_cons_of_mem _ h)
    · simp [aupdate, hk] at h
      rcases h with h | h
      · exact Or.inl (by simp [h])
      · rcases ih h with h' | h'
        · exact Or.inl (List.mem_cons_of_mem _ h')
        · exact Or.inr h'

theorem aupdate_length_of_alookup_none {κ α : Type} [DecidableEq κ]
    (l : List (κ × α)) (k : κ) (v : α) (h : alookup l k = none) :
    (aupdate l k v).length = l.length + 1 := by
  induction l with
  | nil => simp [aupdate]
  | cons hd tl ih =>
    obtain ⟨k', w⟩ := hd
    by_cases hk : k' = k
    · simp [alookup, hk] at h
    · simp [alookup, hk] at h
      simp [aupdate, hk, ih h]

theorem alookup_eq_of_mem_nodup {κ α : Type} [DecidableEq κ]
    (l : List (κ × α)) (pr : κ × α) (hnd : (l.map Prod.fst).Nodup)
    (h : pr ∈ l) : alookup l pr.1 = some pr.2 := by
  induction l with
  | nil => simp at h
  | cons hd tl ih =>
    obtain ⟨k', w⟩ := hd
    rcases List.mem_cons.mp h with h | h
    · subst h
      simp [alookup]
    · rw [List.map_cons] at hnd
      have hne : k' ≠ pr.1 := by
        intro hkk
        have hm : pr.1 ∈ tl.map Prod.fst := List.mem_map_of_mem Prod.fst h
        rw [← hkk] at hm
        exact (List.nodup_cons.mp hnd).1 hm
      simp [alookup, hne]
      exact ih (List.nodup_cons.mp hnd).2 h

theorem alookup_isSome_of_mem_keys {κ α : Type} [DecidableEq κ]
    (l : List (κ × α)) (t : κ) (h : t ∈ l.map Prod.fst) :
    (alookup l t).isSome := by
  induction l with
  | nil => simp at h
  | cons hd tl ih =>
    obtain ⟨k, v⟩ := hd
    by_cases hk : k = t
    · simp [alookup, hk]
    · rw [List.map_cons, List.mem_cons] at h
      rcases h with h | h
      · exact absurd h.symm hk
      · simp [alookup, hk]
        exact ih h

/-! ## Claim theorems -/

/-- Claim C2: for every player account and every threshold, `hero_max_check`
returns true whenever the sum of the heroes' maximum levels at the
account's current town hall is zero, regardless of the threshold. -/
theorem hero_max_check_zero_max_passes (target : Player) (min_value : Nat)
    (h : homeMaxLevelSum target.heroes = 0) :
    hero_max_check target min_value = true := by
  simp [hero_max_check, h]

theorem hero_max_check_zero_max_passes_witness :
    homeMaxLevelSum (Player.mk 10 [] [] []).heroes = 0 ∧
    hero_max_check (Player.mk 10 [] [] []) 75 = true :=
  ⟨rfl, hero_max_check_zero_max_passes (Player.mk 10 [] [] []) 75 rfl⟩

/-- Claim C3: for every session and every user who is not the session owner,
`clan_confirm` answers with the permission error and returns the
session registry unchanged (the handler never writes it). -/
theorem clan_confirm_non_owner (cfgKeys validPlayers validClans : List String)
    (pkgs : Packages) (token : String) (p : ApplicationPackage) (actor : Nat)
    (hlk : alookup pkgs token = some p) (hne : actor ≠ p.user) :
    clan_confirm cfgKeys validPlayers validClans pkgs token actor =
      (.forbidden, pkgs) := by
  simp [clan_confirm, hlk, hne]

theorem clan_confirm_non_owner_witness :
    alookup [("tok", (⟨["#P1"], [("#P1", some "#C")], [("#P1", none)], 1, 5, 9⟩ :
        ApplicationPackage))] "tok"
      = some ⟨["#P1"], [("#P1", some "#C")], [("#P1", none)], 1, 5, 9⟩ ∧
    (2 : Nat) ≠ 1 ∧
    clan_confirm ["#C"] ["#P1"] ["#C"]
        [("tok", ⟨["#P1"], [("#P1", some "#C")], [("#P1", none)], 1, 5, 9⟩)] "tok" 2
      = (.forbidden,
         [("tok", ⟨["#P1"], [("#P1", some "#C")], [("#P1", none)], 1, 5, 9⟩)]) :=
  ⟨by decide, by decide,
   clan_confirm_non_owner ["#C"] ["#P1"] ["#C"]
     [("tok", ⟨["#P1"], [("#P1", some "#C")], [("#P1", none)], 1, 5, 9⟩)] "tok"
     ⟨["#P1"], [("#P1", some "#C")], [("#P1", none)], 1, 5, 9⟩ 2
     (by decide) (by decide)⟩

/-- Claim C5: `clan_confirm` passes its own zero-selection validation as
soon as one account has a selection, but the finalisation then crashes
with an uncaught `KeyError` (`clans_config[None]` at the
channel-rename step) whenever the **first** account's mapping is still
`None`; with the first account selected (the spec's own scenario) it
finalises.  The claim that one selection suffices matches the code's
explicit validation and is the evident intent; the crash is a slip. -/
theorem clan_confirm_crashes_on_leading_null :
    ((⟨["#P1", "#P2"], [("#P1", none), ("#P2", some "#XYZ")],
       [("#P1", none), ("#P2", none)], 1, 5, 9⟩ :
        ApplicationPackage).accClan.any fun pr => pr.2.isSome) = true ∧
    (clan_confirm ["#XYZ"] ["#P1", "#P2"] ["#XYZ"]
        [("deadbeef", ⟨["#P1", "#P2"], [("#P1", none), ("#P2", some "#XYZ")],
          [("#P1", none), ("#P2", none)], 1, 5, 9⟩)] "deadbeef" 1).1
      = .crashed ∧
    (clan_confirm ["#XYZ"] ["#P1", "#P2"] ["#XYZ"]
        [("deadbeef", ⟨["#P1", "#P2"], [("#P1", some "#XYZ"), ("#P2", none)],
          [("#P1", none), ("#P2", none)], 1, 5, 9⟩)] "deadbeef" 1).1
      = .finalized := by
  refine ⟨by decide, by decide, by decide⟩

/-- Claim C10: evaluation of `remove_player_duplicates` on a tag claimed by
users 1, 2 and 3 with only user 1 in the main guild: the routine
deletes the link of the in-guild owner (the comment says "Remove link
from other users") and the reverse mapping afterwards still resolves
to the two owners 2 and 3, not to exactly one. -/
theorem remove_player_duplicates_wrong_owner :
    remove_player_duplicates [(1, ["#T"]), (2, ["#T"]), (3, ["#T"])] [1]
      = [(1, []), (2, ["#T"]), (3, ["#T"])] ∧
    alookup (reverse_dict
        (remove_player_duplicates [(1, ["#T"]), (2, ["#T"]), (3, ["#T"])] [1])) "#T"
      = some [2, 3] := by
  refine ⟨by decide, by decide⟩

/-- Claim C4, counterexample: `clan_selection` does not fail on an account
that is unknown to the session.  Tag `#P2` resolves in the game data
but is not one of the session's accounts, yet the call succeeds and
appends a brand-new mapping entry for it. -/
theorem clan_selection_accepts_foreign_account :
    "#P2" ∉ (⟨["#P1"], [("#P1", none)], [("#P1", none)], 1, 5, 9⟩ :
      ApplicationPackage).accountTags ∧
    clan_selection ["#P1", "#P2"] ["#C"]
        [("tok", ⟨["#P1"], [("#P1", none)], [("#P1", none)], 1, 5, 9⟩)]
        "tok" 1 "#P2" "#C"
      = .ok [("tok", ⟨["#P1"], [("#P1", none), ("#P2", some "#C")],
          [("#P1", none)], 1, 5, 9⟩)] := by
  refine ⟨by decide, rfl⟩

/-- Claim C4 (amended): `clan_selection` fails with the stale-session
(`KeyError`) message on an unknown token, with the forbidden message
when the invoker is not the session owner, with an `InvalidTagError`
(a NotFound) when the clan or account tag does not resolve in the game
data, and otherwise records the account-to-clan mapping (appending an
entry when the account is not yet in the session) and persists the
registry.  No check relates the account to the session's own account
list. -/
theorem clan_selection_spec :
    (∀ (vP vC : List String) (pkgs : Packages) (tok : String) (actor : Nat)
        (acc clan : String), alookup pkgs tok = none →
      clan_selection vP vC pkgs tok actor acc clan = .error .staleData) ∧
    (∀ (vP vC : List String) (pkgs : Packages) (tok : String) (actor : Nat)
        (acc clan : String) (p : ApplicationPackage),
      alookup pkgs tok = some p → actor ≠ p.user →
      clan_selection vP vC pkgs tok actor acc clan = .error .forbidden) ∧
    (∀ (vP vC : List String) (pkgs : Packages) (tok : String) (actor : Nat)
        (acc clan : String) (p : ApplicationPackage),
      alookup pkgs tok = some p → actor = p.user → (clan ∉ vC ∨ acc ∉ vP) →
      clan_selection vP vC pkgs tok actor acc clan = .error .tagNotFound) ∧
    (∀ (vP vC : List String) (pkgs : Packages) (tok : String) (actor : Nat)
        (acc clan : String) (p : ApplicationPackage),
      alookup pkgs tok = some p → actor = p.user → clan ∈ vC → acc ∈ vP →
      clan_selection vP vC pkgs tok actor acc clan =
        .ok (aupdate pkgs tok
          ⟨p.accountTags, aupdate p.accClan acc (some clan),
           p.accImages, p.user, p.messageId, p.channelId⟩)) := by
  refine ⟨?_, ?_, ?_, ?_⟩
  · intro vP vC pkgs tok actor acc clan h
    simp [clan_selection, h]
  · intro vP vC pkgs tok actor acc clan p hlk hne
    simp [clan_selection, hlk, hne]
  · intro vP vC pkgs tok actor acc clan p hlk hown hbad
    rcases hbad with hc | ha
    · simp [clan_selection, hlk, hown, hc]
    · by_cases hc : clan ∈ vC
      · simp [clan_selection, hlk, hown, hc, ha]
      · simp [clan_selection, hlk, hown, hc]
  · intro vP vC pkgs tok actor acc clan p hlk hown hc ha
    simp [clan_selection, hlk, hown, hc, ha]

theorem clan_selection_spec_witness :
    alookup [("tok", (⟨["#P1"], [("#P1", none)], [("#P1", none)], 1, 5, 9⟩ :
        ApplicationPackage))] "tok"
      = some ⟨["#P1"], [("#P1", none)], [("#P1", none)], 1, 5, 9⟩ ∧
    (1 : Nat) = 1 ∧ "#C" ∈ ["#C"] ∧ "#P1" ∈ ["#P1"] ∧
    clan_selection ["#P1"] ["#C"]
        [("tok", ⟨["#P1"], [("#P1", none)], [("#P1", none)], 1, 5, 9⟩)]
        "tok" 1 "#P1" "#C"
      = .ok (aupdate [("tok", ⟨["#P1"], [("#P1", none)], [("#P1", none)], 1, 5, 9⟩)]
          "tok" ⟨["#P1"], aupdate [("#P1", none)] "#P1" (some "#C"),
           [("#P1", none)], 1, 5, 9⟩) :=
  ⟨by decide, rfl, by decide, by decide,
   clan_selection_spec.2.2.2 ["#P1"] ["#C"]
     [("tok", ⟨["#P1"], [("#P1", none)], [("#P1", none)], 1, 5, 9⟩)] "tok" 1
     "#P1" "#C" ⟨["#P1"], [("#P1", none)], [("#P1", none)], 1, 5, 9⟩
     (by decide) rfl (by decide) (by decide)⟩

/-- Claim C7: `clan_checks_add` refuses to touch the registry when the clan
record already holds 2 checks or already holds the same check type,
and therefore preserves the invariant that every persisted clan record
has at most 2 eligibility checks. -/
theorem clan_checks_add_at_most_two :
    (∀ (cfgs : List (String × AllianceClanData)) (tag ct : String) (mv : Nat)
        (v : AllianceClanData), alookup cfgs tag = some v →
      2 ≤ v.checks.length → clan_checks_add cfgs tag ct mv = cfgs) ∧
    (∀ (cfgs : List (String × AllianceClanData)) (tag ct : String) (mv : Nat)
        (v : AllianceClanData), alookup cfgs tag = some v →
      (alookup v.checks ct).isSome → clan_checks_add cfgs tag ct mv = cfgs) ∧
    (∀ (cfgs : List (String × AllianceClanData)) (tag ct : String) (mv : Nat),
      (∀ pr ∈ cfgs, pr.2.checks.length ≤ 2) →
      ∀ pr ∈ clan_checks_add cfgs tag ct mv, pr.2.checks.length ≤ 2) := by
  refine ⟨?_, ?_, ?_⟩
  · intro cfgs tag ct mv v hlk hlen
    simp [clan_checks_add, hlk, hlen]
  · intro cfgs tag ct mv v hlk hct
    have hlen : ¬2 ≤ v.checks.length ∨ 2 ≤ v.checks.length := (em _).symm
    by_cases h2 : 2 ≤ v.checks.length
    · simp [clan_checks_add, hlk, h2]
    · simp [clan_checks_add, hlk, h2, hct]
  · intro cfgs tag ct mv hall pr hpr
    by_cases hlk : ∃ v, alookup cfgs tag = some v
    · obtain ⟨v, hv⟩ := hlk
      by_cases h2 : 2 ≤ v.checks.length
      · rw [clan_checks_add, hv] at hpr
        simp [h2] at hpr
        exact hall pr hpr
      · by_cases hct : (alookup v.checks ct).isSome
        · rw [clan_checks_add, hv] at hpr
          simp [h2, hct] at hpr
          exact hall pr hpr
        · rw [clan_checks_add, hv] at hpr
          simp [h2, hct] at hpr
          rcases mem_aupdate _ _ _ _ hpr with hin | heq
          · exact hall pr hin
          · subst heq
            have hnone : alookup v.checks ct = none := by
              cases hopt : alookup v.checks ct with
              | none => rfl
              | some w => rw [hopt] at hct; simp at hct
            have := aupdate_length_of_alookup_none v.checks ct mv hnone
            simp [this]
            omega
    · push_neg at hlk
      have hnone : alookup cfgs tag = none := by
        cases hopt : alookup cfgs tag with
        | none => rfl
        | some w => exact absurd hopt (by simp [hlk w])
      rw [clan_checks_add, hnone] at hpr
      exact hall pr hpr

theorem clan_checks_add_at_most_two_witness :
    alookup [("#A", (⟨"TH10+", none, true, "Competitive",
        [("hero_sum", 50), ("hero_max", 60)]⟩ : AllianceClanData))] "#A"
      = some ⟨"TH10+", none, true, "Competitive",
          [("hero_sum", 50), ("hero_max", 60)]⟩ ∧
    2 ≤ (⟨"TH10+", none, true, "Competitive",
        [("hero_sum", 50), ("hero_max", 60)]⟩ : AllianceClanData).checks.length ∧
    clan_checks_add
        [("#A", ⟨"TH10+", none, true, "Competitive",
          [("hero_sum", 50), ("hero_max", 60)]⟩)] "#A" "overall_max" 70
      = [("#A", ⟨"TH10+", none, true, "Competitive",
          [("hero_sum", 50), ("hero_max", 60)]⟩)] :=
  ⟨by decide, by decide,
   clan_checks_add_at_most_two.1
     [("#A", ⟨"TH10+", none, true, "Competitive",
       [("hero_sum", 50), ("hero_max", 60)]⟩)] "#A" "overall_max" 70
     ⟨"TH10+", none, true, "Competitive", [("hero_sum", 50), ("hero_max", 60)]⟩
     (by decide) (by decide)⟩

theorem cleanPackages_no_ref (ch : Nat) (pkgs : List (String × ApplicationPackage)) :
    ∀ pr ∈ cleanPackages ch pkgs, pr.2.channelId ≠ ch := by
  intro pr hpr
  rw [cleanPackages, List.mem_filter] at hpr
  simpa using hpr.2

theorem cleanOpenTickets_no_ref (ch : Nat) :
    ∀ l : List (Nat × List Nat), (l.map fun pr => pr.2.count ch).sum ≤ 1 →
    ∀ pr ∈ cleanOpenTickets ch l, ch ∉ pr.2 := by
  intro l
  induction l with
  | nil => intro _ pr hpr; simp [cleanOpenTickets] at hpr
  | cons hd tl ih =>
    obtain ⟨m, cs⟩ := hd
    intro hsum pr hpr
    have hsum' : cs.count ch + (tl.map fun pr => pr.2.count ch).sum ≤ 1 := by
      simpa using hsum
    by_cases hmem : ch ∈ cs
    · have hpos : 1 ≤ cs.count ch := by
        have := List.count_pos_iff.mpr hmem
        omega
      have hrest : (tl.map fun pr => pr.2.count ch).sum = 0 := by omega
      have htl0 : ∀ q ∈ tl, ch ∉ (q : Nat × List Nat).2 := by
        intro q hq
        have hq0 : q.2.count ch = 0 := by
          have hle : q.2.count ch ≤ (tl.map fun pr => pr.2.count ch).sum :=
            List.le_sum_of_mem (List.mem_map_of_mem _ hq)
          omega
        exact List.count_eq_zero.mp hq0
      rw [cleanOpenTickets] at hpr
      simp only [hmem, if_true] at hpr
      by_cases herase : cs.erase ch = []
      · rw [if_pos herase] at hpr
        exact htl0 pr hpr
      · rw [if_neg herase] at hpr
        rcases List.mem_cons.mp hpr with hpr | hpr
        · subst hpr
          have herase' : (cs.erase ch).count ch = cs.count ch - 1 :=
            List.count_erase_self ch cs
          have hzero : (cs.erase ch).count ch = 0 := by omega
          exact List.count_eq_zero.mp hzero
        · exact htl0 pr hpr
    · rw [cleanOpenTickets] at hpr
      simp only [hmem, if_false] at hpr
      rcases List.mem_cons.mp hpr with hpr | hpr
      · subst hpr
        exact hmem
      · exact ih (by omega) pr hpr

theorem cleanTicketEvents_no_ref {α : Type} (ch : Nat) :
    ∀ l : List ((Nat × Nat) × α), (l.countP fun pr => pr.1.1 == ch) ≤ 1 →
    ∀ pr ∈ cleanTicketEvents ch l, pr.1.1 ≠ ch := by
  intro l
  induction l with
  | nil => intro _ pr hpr; simp [cleanTicketEvents] at hpr
  | cons hd tl ih =>
    obtain ⟨k, v⟩ := hd
    intro hcnt pr hpr
    by_cases hk : k.1 = ch
    · rw [cleanTicketEvents, if_pos hk] at hpr
      rw [List.countP_cons_of_pos _ _ (by simpa using hk)] at hcnt
      have h0 : (tl.countP fun pr => pr.1.1 == ch) = 0 := by omega
      have := List.countP_eq_zero.mp h0 pr hpr
      simpa using this
    · rw [cleanTicketEvents, if_neg hk] at hpr
      rcases List.mem_cons.mp hpr with hpr | hpr
      · subst hpr
        exact hk
      · rw [List.countP_cons_of_neg _ _ (by simpa using hk)] at hcnt
        exact ih hcnt pr hpr

/-- Claim C8, counterexample: a channel deletion with two scheduled events
keyed to the deleted channel (different members).  The cleanup breaks
after removing the first matching key, so the second event still
references the deleted channel. -/
theorem on_channel_delete_leaves_second_event :
    ((100, 2), (0 : Nat)) ∈ (on_channel_delete 100
      (⟨[("tok", ⟨[], [], [], 1, 5, 100⟩)], [(7, [100])],
        [((100, 1), 0), ((100, 2), 0)]⟩ : GCState Nat)).ticketEvents ∧
    (on_channel_delete 100
      (⟨[("tok", ⟨[], [], [], 1, 5, 100⟩)], [(7, [100])],
        [((100, 1), 0), ((100, 2), 0)]⟩ : GCState Nat)).ticketEvents
      = [((100, 2), 0)] := by
  refine ⟨by decide, by decide⟩

/-- Claim C8 (amended): on channel deletion, **every** application session
referencing the channel is removed, while the open-ticket registry and
the scheduled-event registry each lose only their **first** matching
entry (the loops break).  When at most one open-ticket occurrence and
at most one scheduled event reference the channel — the shape the rest
of the code produces — no reference at all survives the handler. -/
theorem on_channel_delete_removes_references {α : Type} (ch : Nat) (st : GCState α)
    (hot : (st.openTickets.map fun pr => pr.2.count ch).sum ≤ 1)
    (hev : (st.ticketEvents.countP fun pr => pr.1.1 == ch) ≤ 1) :
    ((on_channel_delete ch st).packages.all fun pr => pr.2.channelId != ch) = true ∧
    ((on_channel_delete ch st).openTickets.all fun pr =>
      pr.2.all fun c => c != ch) = true ∧
    ((on_channel_delete ch st).ticketEvents.all fun pr => pr.1.1 != ch) = true := by
  refine ⟨?_, ?_, ?_⟩
  · rw [List.all_eq_true]
    intro pr hpr
    simpa [bne_iff_ne] using cleanPackages_no_ref ch st.packages pr hpr
  · rw [List.all_eq_true]
    intro pr hpr
    rw [List.all_eq_true]
    intro c hc
    have hnot := cleanOpenTickets_no_ref ch st.openTickets hot pr hpr
    simp only [bne_iff_ne]
    intro hcch
    exact hnot (hcch ▸ hc)
  · rw [List.all_eq_true]
    intro pr hpr
    simpa [bne_iff_ne] using cleanTicketEvents_no_ref ch st.ticketEvents hev pr hpr

theorem on_channel_delete_removes_references_witness :
    ((⟨[("tok", ⟨[], [], [], 1, 5, 100⟩)], [(7, [100, 33])], [((100, 1), 0)]⟩ :
        GCState Nat).openTickets.map fun pr => pr.2.count 100).sum ≤ 1 ∧
    ((⟨[("tok", ⟨[], [], [], 1, 5, 100⟩)], [(7, [100, 33])], [((100, 1), 0)]⟩ :
        GCState Nat).ticketEvents.countP fun pr => pr.1.1 == 100) ≤ 1 ∧
    (((on_channel_delete 100
        (⟨[("tok", ⟨[], [], [], 1, 5, 100⟩)], [(7, [100, 33])], [((100, 1), 0)]⟩ :
          GCState Nat)).packages.all fun pr => pr.2.channelId != 100) = true ∧
     ((on_channel_delete 100
        (⟨[("tok", ⟨[], [], [], 1, 5, 100⟩)], [(7, [100, 33])], [((100, 1), 0)]⟩ :
          GCState Nat)).openTickets.all fun pr =>
        pr.2.all fun c => c != 100) = true ∧
     ((on_channel_delete 100
        (⟨[("tok", ⟨[], [], [], 1, 5, 100⟩)], [(7, [100, 33])], [((100, 1), 0)]⟩ :
          GCState Nat)).ticketEvents.all fun pr => pr.1.1 != 100) = true) :=
  ⟨by decide, by decide,
   on_channel_delete_removes_references 100
     ⟨[("tok", ⟨[], [], [], 1, 5, 100⟩)], [(7, [100, 33])], [((100, 1), 0)]⟩
     (by decide) (by decide)⟩

theorem autoTrialsStep_key (now : Nat) (liveC liveU : List Nat)
    (entry out : (Nat × Nat) × TrialEvent)
    (h : autoTrialsStep now liveC liveU entry = some out) : out.1 = entry.1 := by
  unfold autoTrialsStep at h
  split at h
  · have h' := Option.some.inj h
    subst h'
    rfl
  · split at h
    · exact absurd h (by simp)
    · cases hev : entry.2 with
      | start d ty days =>
        rw [hev] at h
        simp only [Option.some.injEq] at h
        subst h
        rfl
      | tend d ty =>
        rw [hev] at h
        simp at h

/-- Claim C9: when the periodic sweep runs over a store holding a
trial-start event whose timestamp has elapsed and whose channel and
candidate still resolve, the store afterwards holds, under the same
(channel, candidate) key, a trial-end event timestamped at the sweep
time plus the event's stored duration in days (1440 minutes each). -/
theorem auto_trials_start_to_end (now : Nat) (liveC liveU : List Nat)
    (events : List ((Nat × Nat) × TrialEvent)) (k : Nat × Nat)
    (t : Nat) (ty : String) (d : Nat)
    (hlk : alookup events k = some (.start t ty d)) (ht : t ≤ now)
    (hc : k.1 ∈ liveC) (hu : k.2 ∈ liveU) :
    alookup (auto_trials now liveC liveU events) k
      = some (.tend (now + d * 1440) ty) := by
  induction events with
  | nil => simp [alookup] at hlk
  | cons hd tl ih =>
    obtain ⟨k', ev⟩ := hd
    by_cases hk : k' = k
    · subst hk
      rw [alookup] at hlk
      simp at hlk
      subst hlk
      rw [auto_trials, List.filterMap_cons]
      have hstep : autoTrialsStep now liveC liveU (k', .start t ty d)
          = some (k', .tend (now + d * 1440) ty) := by
        simp [autoTrialsStep, TrialEvent.date, Nat.not_lt.mpr ht, hc, hu]
      rw [hstep]
      simp [alookup]
    · rw [alookup] at hlk
      rw [if_neg hk] at hlk
      rw [auto_trials, List.filterMap_cons]
      cases hstep : autoTrialsStep now liveC liveU (k', ev) with
      | none =>
        simpa [auto_trials] using ih hlk
      | some out =>
        obtain ⟨ko, vo⟩ := out
        have hko : ko = k' := autoTrialsStep_key now liveC liveU (k', ev) (ko, vo) hstep
        rw [alookup, if_neg (by rw [hko]; exact hk)]
        simpa [auto_trials] using ih hlk

theorem auto_trials_start_to_end_witness :
    alookup [(((100 : Nat), (7 : Nat)), TrialEvent.start 50 "Moderator" 3)] (100, 7)
      = some (.start 50 "Moderator" 3) ∧
    (50 : Nat) ≤ 60 ∧ ((100 : Nat), (7 : Nat)).1 ∈ [(100 : Nat)] ∧
    ((100 : Nat), (7 : Nat)).2 ∈ [(7 : Nat)] ∧
    alookup (auto_trials 60 [100] [7]
        [((100, 7), TrialEvent.start 50 "Moderator" 3)]) (100, 7)
      = some (.tend (60 + 3 * 1440) "Moderator") :=
  ⟨by decide, by decide, by decide, by decide,
   auto_trials_start_to_end 60 [100] [7]
     [((100, 7), TrialEvent.start 50 "Moderator" 3)] (100, 7) 50 "Moderator" 3
     (by decide) (by decide) (by decide) (by decide)⟩

theorem clanEvalCore_true (v : AllianceClanData) (p : Player)
    (h : clanEvalCore v p = some true) :
    (∃ m, extract_integer v.requirement = some m ∧ m ≤ p.townHall) ∧
    (∀ s, v.maximumPossibleTH = some s → s ≠ "" →
      ∃ M, extract_integer s = some M ∧ p.townHall ≤ M) := by
  cases hreq : extract_integer v.requirement with
  | none => simp [clanEvalCore, hreq] at h
  | some minTH =>
    by_cases hth : p.townHall < minTH
    · simp [clanEvalCore, hreq, hth] at h
    · refine ⟨⟨minTH, rfl, Nat.not_lt.mp hth⟩, ?_⟩
      intro s hs hsne
      cases hms : extract_integer s with
      | none => simp [clanEvalCore, hreq, hth, hs, hsne, hms] at h
      | some M =>
        by_cases hM : M < p.townHall
        · simp [clanEvalCore, hreq, hth, hs, hsne, hms, hM] at h
        · exact ⟨M, rfl, Nat.not_lt.mp hM⟩

theorem clanEvalSelect_true (v : AllianceClanData) (p : Player)
    (h : clanEvalSelect v p = some true) :
    v.recruitment = true ∧ v.ctype ≠ "FWA" ∧
    (∃ m, extract_integer v.requirement = some m ∧ m ≤ p.townHall) ∧
    (∀ s, v.maximumPossibleTH = some s → s ≠ "" →
      ∃ M, extract_integer s = some M ∧ p.townHall ≤ M) := by
  unfold clanEvalSelect at h
  by_cases hr : v.recruitment = false
  · rw [if_pos hr] at h
    exact absurd h (by simp)
  · rw [if_neg hr] at h
    by_cases hf : v.ctype = "FWA"
    · rw [if_pos hf] at h
      exact absurd h (by simp)
    · rw [if_neg hf] at h
      have hcore := clanEvalCore_true v p h
      exact ⟨by simpa using hr, hf, hcore.1, hcore.2⟩

theorem clanEvalApply_true (v : AllianceClanData) (p : Player)
    (h : clanEvalApply v p = some true) :
    v.recruitment = true ∧ v.ctype ≠ "FWA" ∧ v.ctype ≠ "CWL" ∧
    (∃ m, extract_integer v.requirement = some m ∧ m ≤ p.townHall) ∧
    (∀ s, v.maximumPossibleTH = some s → s ≠ "" →
      ∃ M, extract_integer s = some M ∧ p.townHall ≤ M) := by
  unfold clanEvalApply at h
  by_cases hr : v.recruitment = false
  · rw [if_pos hr] at h
    exact absurd h (by simp)
  · rw [if_neg hr] at h
    by_cases hf : v.ctype = "FWA"
    · rw [if_pos hf] at h
      exact absurd h (by simp)
    · rw [if_neg hf] at h
      by_cases hw : v.ctype = "CWL"
      · rw [if_pos hw] at h
        exact absurd h (by simp)
      · rw [if_neg hw] at h
        have hcore := clanEvalCore_true v p h
        exact ⟨by simpa using hr, hf, hw, hcore.1, hcore.2⟩

theorem offeredGo_mem (ev : AllianceClanData → Player → Option Bool) (p : Player) :
    ∀ (cfgs : List (String × AllianceClanData)) (cnt : Nat) (l : List String)
      (tag : String),
    offeredGo ev p cnt cfgs = some l → tag ∈ l →
    ∃ v, (tag, v) ∈ cfgs ∧ ev v p = some true := by
  intro cfgs
  induction cfgs with
  | nil =>
    intro cnt l tag h htag
    simp only [offeredGo] at h
    rw [← Option.some.inj h] at htag
    simp at htag
  | cons hd tl ih =>
    obtain ⟨key, v⟩ := hd
    intro cnt l tag h htag
    simp only [offeredGo] at h
    by_cases hcnt : 30 ≤ cnt
    · rw [if_pos hcnt] at h
      rw [← Option.some.inj h] at htag
      simp at htag
    · rw [if_neg hcnt] at h
      cases hev : ev v p with
      | none => rw [hev] at h; exact absurd h (by simp)
      | some b =>
        cases b
        · rw [hev] at h
          obtain ⟨v', hv'⟩ := ih cnt l tag h htag
          exact ⟨v', List.mem_cons_of_mem _ hv'.1, hv'.2⟩
        · rw [hev] at h
          cases hrest : offeredGo ev p (cnt + 1) tl with
          | none => rw [hrest] at h; exact absurd h (by simp)
          | some l' =>
            rw [hrest] at h
            simp at h
            rw [← h] at htag
            rcases List.mem_cons.mp htag with htag | htag
            · subst htag
              exact ⟨v, List.mem_cons_self _ _, hev⟩
            · obtain ⟨v', hv'⟩ := ih (cnt + 1) l' tag hrest htag
              exact ⟨v', List.mem_cons_of_mem _ hv'.1, hv'.2⟩

/-- Claim C1, counterexample: a league-only (type `CWL`) clan with open
recruitment is offered as a selectable option by the generic
`clan_select` flow — that flow filters only the `FWA` category. -/
theorem clan_select_offers_cwl_clan :
    offeredClansSelect [("#CWL1", ⟨"TH10+", none, true, "CWL", []⟩)]
        ⟨10, [], [], []⟩
      = some ["#CWL1"] ∧
    (⟨"TH10+", none, true, "CWL", []⟩ : AllianceClanData).ctype = "CWL" := by
  refine ⟨by decide, rfl⟩

/-- Claim C1 (amended): a clan is offered as a selectable option only if its
recruitment flag is open, the account's town hall meets the parsed
minimum requirement and (when a maximum is configured and non-empty)
does not exceed it, and the clan is not of the farm-war (`FWA`)
category; the league-only (`CWL`) exclusion additionally holds in the
interview apply flow, but **not** in the `clan_select` flow, which
offers `CWL` clans. -/
theorem clan_eligibility_only_if :
    (∀ (cfgs : List (String × AllianceClanData)) (p : Player) (l : List String)
        (tag : String), offeredClansSelect cfgs p = some l → tag ∈ l →
      ∃ v, (tag, v) ∈ cfgs ∧ v.recruitment = true ∧ v.ctype ≠ "FWA" ∧
        (∃ m, extract_integer v.requirement = some m ∧ m ≤ p.townHall) ∧
        (∀ s, v.maximumPossibleTH = some s → s ≠ "" →
          ∃ M, extract_integer s = some M ∧ p.townHall ≤ M)) ∧
    (∀ (cfgs : List (String × AllianceClanData)) (p : Player) (l : List String)
        (tag : String), offeredClansApply cfgs p = some l → tag ∈ l →
      ∃ v, (tag, v) ∈ cfgs ∧ v.recruitment = true ∧ v.ctype ≠ "FWA" ∧
        v.ctype ≠ "CWL" ∧
        (∃ m, extract_integer v.requirement = some m ∧ m ≤ p.townHall) ∧
        (∀ s, v.maximumPossibleTH = some s → s ≠ "" →
          ∃ M, extract_integer s = some M ∧ p.townHall ≤ M)) := by
  constructor
  · intro cfgs p l tag h htag
    obtain ⟨v, hmem, hev⟩ := offeredGo_mem clanEvalSelect p cfgs 0 l tag h htag
    obtain ⟨h1, h2, h3, h4⟩ := clanEvalSelect_true v p hev
    exact ⟨v, hmem, h1, h2, h3, h4⟩
  · intro cfgs p l tag h htag
    obtain ⟨v, hmem, hev⟩ := offeredGo_mem clanEvalApply p cfgs 0 l tag h htag
    obtain ⟨h1, h2, h3, h4, h5⟩ := clanEvalApply_true v p hev
    exact ⟨v, hmem, h1, h2, h3, h4, h5⟩

theorem clan_eligibility_only_if_witness :
    offeredClansSelect [("#A", ⟨"TH10+", none, true, "Competitive", []⟩)]
        ⟨11, [], [], []⟩
      = some ["#A"] ∧
    "#A" ∈ ["#A"] ∧
    (∃ v, ("#A", v) ∈
        [("#A", (⟨"TH10+", none, true, "Competitive", []⟩ : AllianceClanData))] ∧
      v.recruitment = true ∧ v.ctype ≠ "FWA" ∧
      (∃ m, extract_integer v.requirement = some m ∧
        m ≤ (⟨11, [], [], []⟩ : Player).townHall) ∧
      (∀ s, v.maximumPossibleTH = some s → s ≠ "" →
        ∃ M, extract_integer s = some M ∧
          (⟨11, [], [], []⟩ : Player).townHall ≤ M)) :=
  ⟨by decide, by decide,
   clan_eligibility_only_if.1 [("#A", ⟨"TH10+", none, true, "Competitive", []⟩)]
     ⟨11, [], [], []⟩ ["#A"] "#A" (by decide) (by decide)⟩

theorem alookup_aupdate_isSome {κ α : Type} [DecidableEq κ]
    (m : List (κ × α)) (k k' : κ) (v : α) (h : (alookup m k).isSome) :
    (alookup (aupdate m k' v) k).isSome := by
  by_cases hk : k = k'
  · subst hk
    rw [alookup_aupdate_self]
    rfl
  · rw [alookup_aupdate_ne m k' k v hk]
    exact h

theorem cancelReset_lookup_not_mem (rows : List (String × Bool)) :
    ∀ (m : List (String × Option String)) (t : String),
    t ∉ rows.map Prod.fst → alookup (cancelReset m rows) t = alookup m t := by
  induction rows with
  | nil => intro m t _; rfl
  | cons hd tl ih =>
    obtain ⟨t₀, e⟩ := hd
    intro m t ht
    rw [List.map_cons] at ht
    have hne : t ≠ t₀ := fun hh => ht (by simp [hh])
    have htl : t ∉ tl.map Prod.fst := fun hh => ht (List.mem_cons_of_mem _ hh)
    simp only [cancelReset, List.foldl_cons]
    simp only [cancelReset] at ih
    by_cases he : e = true
    · rw [if_pos he]
      rw [ih (aupdate m t₀ none) t htl]
      exact alookup_aupdate_ne m t₀ t none hne
    · rw [if_neg he]
      exact ih m t htl

theorem cancelReset_keys (rows : List (String × Bool)) :
    ∀ m : List (String × Option String),
    (∀ pr ∈ rows, pr.2 = true → (alookup m pr.1).isSome) →
    (cancelReset m rows).map Prod.fst = m.map Prod.fst := by
  induction rows with
  | nil => intro m _; rfl
  | cons hd tl ih =>
    obtain ⟨t₀, e⟩ := hd
    intro m hm
    simp only [cancelReset, List.foldl_cons]
    simp only [cancelReset] at ih
    by_cases he : e = true
    · rw [if_pos he]
      have h₀ : (alookup m t₀).isSome := hm (t₀, e) (List.mem_cons_self _ _) he
      rw [ih (aupdate m t₀ none) ?_]
      · exact aupdate_keys_of_mem m t₀ none h₀
      · intro pr hpr hpre
        exact alookup_aupdate_isSome m pr.1 t₀ none
          (hm pr (List.mem_cons_of_mem _ hpr) hpre)
    · rw [if_neg he]
      exact ih m fun pr hpr hpre => hm pr (List.mem_cons_of_mem _ hpr) hpre

theorem cancelReset_lookup_none (rows : List (String × Bool)) :
    ∀ m : List (String × Option String), (rows.map Prod.fst).Nodup →
    (∀ pr ∈ rows, pr.2 = false → alookup m pr.1 = some none) →
    ∀ t ∈ rows.map Prod.fst, alookup (cancelReset m rows) t = some none := by
  induction rows with
  | nil => intro m _ _ t ht; simp at ht
  | cons hd tl ih =>
    obtain ⟨t₀, e⟩ := hd
    intro m hnd hfalse t ht
    rw [List.map_cons] at hnd ht
    have hnotin : t₀ ∉ tl.map Prod.fst := (List.nodup_cons.mp hnd).1
    have hndtl : (tl.map Prod.fst).Nodup := (List.nodup_cons.mp hnd).2
    simp only [cancelReset, List.foldl_cons]
    simp only [cancelReset] at ih
    by_cases he : e = true
    · rw [if_pos he]
      rcases List.mem_cons.mp ht with ht | ht
    -- the reset entry itself, or one further down the rows
      · subst ht
        have := cancelReset_lookup_not_mem tl (aupdate m t none) t hnotin
        simp only [cancelReset] at this
        rw [this]
        exact alookup_aupdate_self m t none
      · refine ih (aupdate m t₀ none) hndtl ?_ t ht
        intro pr hpr hpre
        have hne : pr.1 ≠ t₀ := by
          intro hh
          exact hnotin (hh ▸ List.mem_map_of_mem Prod.fst hpr)
        rw [alookup_aupdate_ne m t₀ pr.1 none hne]
        exact hfalse pr (List.mem_cons_of_mem _ hpr) hpre
    · rw [if_neg he]
      rcases List.mem_cons.mp ht with ht | ht
      · subst ht
        have := cancelReset_lookup_not_mem tl m t hnotin
        simp only [cancelReset] at this
        rw [this]
        exact hfalse (t, e) (List.mem_cons_self _ _) (by simpa using he)
      · exact ih m hndtl
          (fun pr hpr hpre => hfalse pr (List.mem_cons_of_mem _ hpr) hpre) t ht

theorem cancelReset_fixed (rows : List (String × Bool)) :
    ∀ m : List (String × Option String),
    (∀ pr ∈ rows, alookup m pr.1 = some none) → cancelReset m rows = m := by
  induction rows with
  | nil => intro m _; rfl
  | cons hd tl ih =>
    obtain ⟨t₀, e⟩ := hd
    intro m hm
    simp only [cancelReset, List.foldl_cons]
    simp only [cancelReset] at ih
    by_cases he : e = true
    · rw [if_pos he]
      rw [aupdate_of_alookup_eq m t₀ none (hm (t₀, e) (List.mem_cons_self _ _))]
      exact ih m fun pr hpr => hm pr (List.mem_cons_of_mem _ hpr)
    · rw [if_neg he]
      exact ih m fun pr hpr => hm pr (List.mem_cons_of_mem _ hpr)

/-- Claim C6: for every session, the owner calling `clan_cancel` twice in a
row leaves the session in the same all-null account-to-clan mapping
state after each of the two calls, and the second call raises no
error.  Hypotheses: the mapping's keys are the session's account list
(as produced at session creation), account tags are distinct, the
message holds one select row per account, and accounts whose row is
ineligible (disabled) still carry their initial `None` mapping. -/
theorem clan_cancel_idempotent
    (pkgs : Packages) (eligible : List Bool) (token : String)
    (p : ApplicationPackage) (actor : Nat)
    (hlk : alookup pkgs token = some p)
    (hown : actor = p.user)
    (hkeys : p.accClan.map Prod.fst = p.accountTags)
    (hnd : p.accountTags.Nodup)
    (hlen : p.accountTags.length ≤ eligible.length)
    (hinel : ∀ pr ∈ p.accountTags.zip eligible, pr.2 = false →
      alookup p.accClan pr.1 = some none) :
    clan_cancel pkgs eligible token actor
      = .ok (aupdate pkgs token (cancelPackage p eligible)) ∧
    ((cancelPackage p eligible).accClan.all fun pr => pr.2.isNone) = true ∧
    clan_cancel (aupdate pkgs token (cancelPackage p eligible)) eligible token actor
      = .ok (aupdate pkgs token (cancelPackage p eligible)) := by
  have hrowkeys : (p.accountTags.zip eligible).map Prod.fst = p.accountTags :=
    List.map_fst_zip _ _ hlen
  have hlook : ∀ t ∈ (p.accountTags.zip eligible).map Prod.fst,
      alookup (cancelReset p.accClan (p.accountTags.zip eligible)) t = some none :=
    cancelReset_lookup_none _ _ (by rw [hrowkeys]; exact hnd) hinel
  have hsome : ∀ pr ∈ p.accountTags.zip eligible, pr.2 = true →
      (alookup p.accClan pr.1).isSome := by
    intro pr hpr _
    apply alookup_isSome_of_mem_keys
    rw [hkeys, ← hrowkeys]
    exact List.mem_map_of_mem Prod.fst hpr
  have hreskeys : (cancelReset p.accClan (p.accountTags.zip eligible)).map Prod.fst
      = p.accClan.map Prod.fst := cancelReset_keys _ _ hsome
  have hallnone : ∀ pr ∈ cancelReset p.accClan (p.accountTags.zip eligible),
      pr.2 = none := by
    intro pr hpr
    have h1 : alookup (cancelReset p.accClan (p.accountTags.zip eligible)) pr.1
        = some pr.2 :=
      alookup_eq_of_mem_nodup _ pr (by rw [hreskeys, hkeys]; exact hnd) hpr
    have h2 : pr.1 ∈ (p.accountTags.zip eligible).map Prod.fst := by
      rw [hrowkeys, ← hkeys, ← hreskeys]
      exact List.mem_map_of_mem Prod.fst hpr
    have h3 := hlook pr.1 h2
    rw [h1] at h3
    exact Option.some.inj h3
  refine ⟨?_, ?_, ?_⟩
  · simp [clan_cancel, hlk, hown]
  · rw [List.all_eq_true]
    intro pr hpr
    rw [hallnone pr hpr]
    rfl
  · have hlk2 := alookup_aupdate_self pkgs token (cancelPackage p eligible)
    have hfix : cancelReset (cancelReset p.accClan (p.accountTags.zip eligible))
        (p.accountTags.zip eligible)
        = cancelReset p.accClan (p.accountTags.zip eligible) := by
      apply cancelReset_fixed
      intro pr hpr
      exact hlook pr.1 (List.mem_map_of_mem Prod.fst hpr)
    have hcp : cancelPackage (cancelPackage p eligible) eligible
        = cancelPackage p eligible := by
      simp only [cancelPackage]
      rw [hfix]
    simp only [clan_cancel, hlk2]
    rw [if_pos (by simpa [cancelPackage] using hown)]
    rw [hcp]
    rw [aupdate_of_alookup_eq _ token _ hlk2]

theorem clan_cancel_idempotent_witness :
    alookup [("tok", samplePackage)] "tok" = some samplePackage ∧
    samplePackage.accountTags.Nodup ∧
    (clan_cancel [("tok", samplePackage)] [true, true] "tok" 1
       = .ok (aupdate [("tok", samplePackage)] "tok"
           (cancelPackage samplePackage [true, true])) ∧
     ((cancelPackage samplePackage [true, true]).accClan.all
        fun pr => pr.2.isNone) = true ∧
     clan_cancel
        (aupdate [("tok", samplePackage)] "tok"
          (cancelPackage samplePackage [true, true])) [true, true] "tok" 1
       = .ok (aupdate [("tok", samplePackage)] "tok"
           (cancelPackage samplePackage [true, true]))) :=
  ⟨by decide, by decide,
   clan_cancel_idempotent [("tok", samplePackage)] [true, true] "tok"
     samplePackage 1 (by decide) rfl (by decide) (by decide) (by decide)
     (by decide)⟩
